import Mathlib

/-! # Cosa LCD menu (`Cosa/Menu.hh`) and DS18B20 scratchpad read (`Cosa/DS18B20.cpp`)

A shallow embedding of the menu data model, the authoring macros, the menu
walker and its keypad controller, and of `DS18B20::read_scratchpad`.

Conventions of the embedding:
* a pointer is an `Option Nat`: `none` is the null pointer `0`, `some a` the
  address `a` of an object; the address of a declared variable is never null;
* program memory is a map from addresses to the constant objects placed there;
* `uint8_t`, `uint16_t` and `int16_t` values are `Nat`/`Int` reduced explicitly
  modulo `2^8` or `2^16`;
* value cells live in RAM, a map from addresses to 16-bit words.
-/

/-! ## Machine integers -/

/-- Conversion to `uint8_t`. -/
def uint8_t (n : Nat) : Nat := n % 256

/-- Conversion to `uint16_t`. -/
def uint16_t (n : Nat) : Nat := n % 65536

/-- Conversion to `int16_t` (two's complement, wrapping). -/
def int16_t (i : Int) : Int := (i + 32768) % 65536 - 32768

/-- Values representable in an `int16_t`. -/
def isInt16 (i : Int) : Prop := -32768 ≤ i ∧ i ≤ 32767

instance (i : Int) : Decidable (isInt16 i) := by
  unfold isInt16; exact inferInstance

namespace Menu

/-! ## Data model (`Menu.hh` lines 39-110) -/

/-- Menu type tag code. -/
inductive type_t where
  | ITEM
  | ITEM_LIST
  | ENUM
  | BITSET
  | RANGE
  | ACTION
  deriving DecidableEq, Repr

/-- Enumerator value of a tag: C enumerators count up from zero. -/
def type_t.code : type_t → Nat
  | .ITEM => 0
  | .ITEM_LIST => 1
  | .ENUM => 2
  | .BITSET => 3
  | .RANGE => 4
  | .ACTION => 5

/-- Character string in program memory. -/
abbrev str_P := String

/-- Menu item header. Also used for enumeration symbols. -/
structure item_t where
  type : type_t
  name : str_P
  deriving DecidableEq, Repr

/-- Pointer to an item header in program memory. -/
abbrev item_P := Option Nat

/-- Vector of item pointers in program memory, closed by a null entry. -/
abbrev item_vec_P := List item_P

/-- Menu item lists. -/
structure item_list_t where
  item : item_t
  list : item_vec_P
  deriving DecidableEq, Repr

/-- Pointer to an item list in program memory. -/
abbrev item_list_P := Option Nat

/-- Enumeration variable symbols list (one-of); `value` is the address of a
`uint16_t` cell. -/
structure enum_t where
  item : item_t
  list : item_vec_P
  value : Nat
  deriving DecidableEq, Repr

/-- Bitset variable symbols list (zero-or-many): the same structure. -/
abbrev bitset_t := enum_t

/-- Integer range variable; `value` is the address of an `int16_t` cell. -/
structure range_t where
  item : item_t
  low : Int
  high : Int
  value : Nat
  deriving DecidableEq, Repr

/-- Menu action item; `obj` is the address of the action handler. -/
structure action_t where
  item : item_t
  obj : Nat
  deriving DecidableEq, Repr

/-- An object placed in program memory by one of the authoring macros. -/
inductive Obj where
  | item (v : item_t)
  | item_list (v : item_list_t)
  | enum (v : enum_t)
  | range (v : range_t)
  | action (v : action_t)
  deriving DecidableEq, Repr

/-- Header of an object: its first member. -/
def Obj.header : Obj → item_t
  | .item v => v
  | .item_list v => v.item
  | .enum v => v.item
  | .range v => v.item
  | .action v => v.item

/-- Program memory: the constant objects of the menu model, by address. -/
abbrev Pgm := Nat → Option Obj

/-- RAM: 16-bit words, by address. -/
abbrev Ram := Nat → Nat

/-- Items of a vector: scan up to the first null entry. -/
def vec_items : item_vec_P → List Nat
  | some a :: rest => a :: vec_items rest
  | _ => []

/-- Number of items of a vector (entries before the first null). -/
def vec_length (v : item_vec_P) : Nat := (vec_items v).length

/-! ## Authoring macros (`Menu.hh` lines 215-369) -/

/-- An item vector initialiser under construction, with the name string
declared by the opening macro. -/
structure Decl where
  name : str_P
  list : item_vec_P
  deriving DecidableEq, Repr

/-- Expansion of `MENU_BEGIN(var,name)`: declares `var_name` and opens `var_list[] = {`. -/
def MENU_BEGIN (name : str_P) : Decl := { name := name, list := [] }

/-- Expansion of `MENU_ITEM(var)`: appends the entry `&var.item,`. The header
`item` is the first member of each item structure, so the entry is the address
`var` of the item added. -/
def MENU_ITEM (d : Decl) (var : Nat) : Decl := { d with list := d.list ++ [some var] }

/-- Expansion of `MENU_END(var)`: appends the entry `0`, closes the vector and defines the
item list. -/
def MENU_END (d : Decl) : item_list_t :=
  { item := { type := .ITEM_LIST, name := d.name }, list := d.list ++ [none] }

/-- The item list authored as
`MENU_BEGIN(var,name) MENU_ITEM(i_1) ... MENU_ITEM(i_n) MENU_END(var)`. -/
def MENU (name : str_P) (items : List Nat) : item_list_t :=
  MENU_END (items.foldl MENU_ITEM (MENU_BEGIN name))

/-- Expansion of `MENU_SYMB(var,name)`. -/
def MENU_SYMB (name : str_P) : item_t := { type := .ITEM, name := name }

/-- Expansion of `MENU_ENUM_BEGIN(var)`: opens `var_list[] = {`. -/
def MENU_ENUM_BEGIN : item_vec_P := []

/-- Expansion of `MENU_ENUM_ITEM(var)`: appends the entry `&var,`. -/
def MENU_ENUM_ITEM (l : item_vec_P) (var : Nat) : item_vec_P := l ++ [some var]

/-- Expansion of `MENU_ENUM_END(var)`: appends the entry `0` and closes the vector. -/
def MENU_ENUM_END (l : item_vec_P) : item_vec_P := l ++ [none]

/-- Expansion of `MENU_ENUM(type,var,name,value)`: `type_list` is the symbol vector,
`value` the address of the variable. -/
def MENU_ENUM (type_list : item_vec_P) (name : str_P) (value : Nat) : enum_t :=
  { item := { type := .ENUM, name := name }, list := type_list, value := value }

/-- Expansion of `MENU_BITSET(type,var,name,value)`. -/
def MENU_BITSET (type_list : item_vec_P) (name : str_P) (value : Nat) : bitset_t :=
  { item := { type := .BITSET, name := name }, list := type_list, value := value }

/-- Expansion of `MENU_RANGE(var,name,low,high,value)`: the bounds initialise `int16_t`
members. -/
def MENU_RANGE (name : str_P) (low high : Int) (value : Nat) : range_t :=
  { item := { type := .RANGE, name := name }, low := int16_t low, high := int16_t high,
    value := value }

/-- Expansion of `MENU_ACTION(var,name,obj)`. -/
def MENU_ACTION (name : str_P) (obj : Nat) : action_t :=
  { item := { type := .ACTION, name := name }, obj := obj }

/-! ## Walker (`Menu.hh` lines 116-182) -/

namespace Walker

/-- Depth of the stack for the menu walker path. -/
def STACK_MAX : Nat := 8

/-- Menu walker key index: an anonymous enumeration, each enumerator one more
than the previous. -/
def NO_KEY : Nat := 0
/-- Second enumerator. -/
def SELECT_KEY : Nat := NO_KEY + 1
/-- Third enumerator. -/
def LEFT_KEY : Nat := SELECT_KEY + 1
/-- Fourth enumerator. -/
def DOWN_KEY : Nat := LEFT_KEY + 1
/-- Fifth enumerator. -/
def UP_KEY : Nat := DOWN_KEY + 1
/-- Sixth enumerator. -/
def RIGHT_KEY : Nat := UP_KEY + 1

/-- The enumerators of the key enumeration, in declaration order. -/
def keys : List Nat := [NO_KEY, SELECT_KEY, LEFT_KEY, DOWN_KEY, UP_KEY, RIGHT_KEY]

end Walker

/-- Data members of `Menu::Walker`. `m_stack` has `STACK_MAX` slots; a slot
that was never assigned holds `none`. `m_top`, `m_ix` and `m_bv` are `uint8_t`
members. `m_out` is the output stream, identified by the LCD device it is
bound to. -/
structure Walker where
  m_stack : List item_list_P
  m_top : Nat
  m_ix : Nat
  m_bv : Nat
  m_selected : Bool
  m_out : Option Nat
  deriving DecidableEq, Repr

namespace Walker

/-- Constructor `Walker(LCD::Device* lcd, item_list_P root)`: the member initialisers, then
`m_stack[m_top] = root`. -/
def ctor (lcd : Option Nat) (root : item_list_P) : Walker :=
  let m_top := 0
  { m_stack := (List.replicate STACK_MAX none).set m_top root
    m_top := m_top
    m_ix := 0
    m_bv := 0
    m_selected := false
    m_out := lcd }

/-- The active list pointer `m_stack[m_top]`. -/
def active (s : Walker) : item_list_P := (s.m_stack.get? s.m_top).join

/-- The item list a pointer refers to in program memory. -/
def read_list (pgm : Pgm) (p : item_list_P) : Option item_list_t :=
  match p with
  | none => none
  | some a =>
    match pgm a with
    | some (.item_list l) => some l
    | _ => none

/-- Items of the list that stack slot `k` points to (empty when the slot
refers to no list). -/
def frame_items (pgm : Pgm) (stack : List item_list_P) (k : Nat) : List Nat :=
  match read_list pgm (stack.get? k).join with
  | some l => vec_items l.list
  | none => []

/-- Items of the active list `m_stack[m_top]`. -/
def active_items (pgm : Pgm) (s : Walker) : List Nat := frame_items pgm s.m_stack s.m_top

/-- Stack depth: number of frames on the path. -/
def depth (s : Walker) : Nat := s.m_top + 1

end Walker

/-- What the display device receives through the output stream. -/
inductive Out where
  | clear
  | text (s : String)
  deriving DecidableEq, Repr

/-- The walker together with what it acts on: the RAM holding the value cells
and the text received so far by the device behind `m_out`. The component
`saved` is not a member declared in `Menu.hh`: it is the per-level index that
the specification (§4.2, UP) persists alongside each stack frame, one slot per
frame; only the modelled `on_key_down` reads or writes it. -/
structure World where
  walker : Walker
  saved : List Nat
  ram : Ram
  lcd : List Out

/-- Member `void begin() { m_out << clear << *this; }`. The stream manipulator
`clear` and `operator<<(IOStream&, Walker&)` are defined outside this header;
the latter is the parameter `render`, a projection of the walker and the value
cells to text. -/
def Walker.begin (render : Walker → Ram → List Out) (w : World) : World :=
  let out1 := w.lcd ++ [Out.clear]
  let out2 := out1 ++ render w.walker w.ram
  { w with lcd := out2 }

/-! ## Keypad controller (`Menu.hh` lines 184-212) -/

/-- Data member of `Menu::KeypadController`: the pointer `m_walker`. -/
structure KeypadController where
  m_walker : Nat
  deriving DecidableEq, Repr

namespace KeypadController

/-- Constructor `KeypadController(Walker* walker)`. -/
def ctor (walker : Nat) : KeypadController := { m_walker := walker }

/-- Member `virtual void on_key_down(uint8_t nr) { m_walker->on_key_down(nr); }`.
`walker_on_key_down` is `Walker::on_key_down` acting on a walker of state
type `σ`; `heap` holds the walkers by address. -/
def on_key_down {σ : Type} (walker_on_key_down : Nat → σ → σ)
    (self : KeypadController) (nr : Nat) (heap : Nat → σ) : KeypadController × (Nat → σ) :=
  (self, Function.update heap self.m_walker (walker_on_key_down nr (heap self.m_walker)))

/-- A walker that only records the keys it is called with. -/
def record (nr : Nat) (log : List Nat) : List Nat := log ++ [nr]

/-- The keys the controller forwards to its walker on `on_key_down(nr)`. -/
def forwarded (self : KeypadController) (nr : Nat) : List Nat :=
  (on_key_down record self nr (fun _ => [])).2 self.m_walker

end KeypadController

/-! ## Walker key interpreter

`Walker::on_key_down` is declared in `Menu.hh` (line 172) and defined in a
translation unit that is not part of the sources at hand. The definitions of
this section follow the transition table of the specification (§4.2), over
the data members declared in the header. -/

/-- What the walker reads but does not own: the menu model in program
memory, the action handlers (`Action::run`, by handler address and item
address, acting on RAM and returning the re-render request) and the
renderer. -/
structure Env where
  pgm : Pgm
  run : Nat → Nat → Ram → Bool × Ram
  render : Walker → Ram → List Out

/-- Read an `int16_t` cell. -/
def read_int16 (ram : Ram) (a : Nat) : Int := int16_t (ram a)

/-- Write an `int16_t` cell. -/
def write_int16 (ram : Ram) (a : Nat) (i : Int) : Ram :=
  Function.update ram a (i % 65536).toNat

/-- Read a `uint16_t` cell. -/
def read_uint16 (ram : Ram) (a : Nat) : Nat := uint16_t (ram a)

/-- Write a `uint16_t` cell. -/
def write_uint16 (ram : Ram) (a : Nat) (n : Nat) : Ram :=
  Function.update ram a (uint16_t n)

/-- Clamp `x` to `[low, high]`. -/
def clamp (low high x : Int) : Int := max low (min high x)

namespace Walker

/-- Initial world of a display session: the constructed walker, with every
per-level index slot at zero. -/
def init (lcd : Option Nat) (root : item_list_P) (ram : Ram) : World :=
  { walker := ctor lcd root, saved := List.replicate STACK_MAX 0, ram := ram, lcd := [] }

/-- Modelled from the spec: the focus `path[top].items[current index]` (§4.2),
as the address of the focused item and the object found there. -/
def focus (pgm : Pgm) (s : Walker) : Option (Nat × Obj) :=
  match (active_items pgm s).get? s.m_ix with
  | none => none
  | some a =>
    match pgm a with
    | none => none
    | some o => some (a, o)

/-- Modelled from the spec: toggle bit `b` of the `uint16_t` cell at `a`
(§4.2, SELECT on a BITSET). -/
def toggle_bit (ram : Ram) (a : Nat) (b : Nat) : Ram :=
  write_uint16 ram a (Nat.xor (read_uint16 ram a) (1 <<< b))

/-- Modelled from the spec: index of the next sibling, wrapping at the end of
a list of `n` entries (§4.2, RIGHT). -/
def next_ix (n ix : Nat) : Nat := if ix + 1 < n then ix + 1 else 0

/-- Modelled from the spec: index of the previous sibling, wrapping at the
start of a list of `n` entries (§4.2, LEFT). -/
def prev_ix (n ix : Nat) : Nat := if ix = 0 then n - 1 else ix - 1

/-- Modelled from the spec: the transitions in BROWSE (§4.2). The `Bool` is
the request to render again: set by the transitions that change what is
shown, and by an action handler that returns true. An index is converted to
`uint8_t` when it is stored in the member `m_ix`; a push is absorbed when the
stack already holds `STACK_MAX` frames, a pop when it holds one. -/
def browse (env : Env) (nr : Nat) (w : World) : World × Bool :=
  let s := w.walker
  let n := (active_items env.pgm s).length
  if nr = RIGHT_KEY then
    let ix := uint8_t (next_ix n s.m_ix)
    ({ w with walker := { s with m_ix := ix } }, decide (ix ≠ s.m_ix))
  else if nr = LEFT_KEY then
    let ix := uint8_t (prev_ix n s.m_ix)
    ({ w with walker := { s with m_ix := ix } }, decide (ix ≠ s.m_ix))
  else if nr = DOWN_KEY then
    match focus env.pgm s with
    | some (a, .item_list l) =>
      if l.item.type = .ITEM_LIST ∧ s.m_top + 1 < STACK_MAX then
        ({ w with
            walker := { s with m_stack := s.m_stack.set (s.m_top + 1) (some a),
                               m_top := s.m_top + 1, m_ix := 0 },
            saved := w.saved.set s.m_top s.m_ix }, true)
      else (w, false)
    | some (_, .enum e) =>
      if e.item.type = .ENUM ∨ e.item.type = .BITSET then
        ({ w with walker := { s with m_selected := true } }, true)
      else (w, false)
    | some (_, .range r) =>
      if r.item.type = .RANGE then
        ({ w with walker := { s with m_selected := true } }, true)
      else (w, false)
    | some (a, .action act) =>
      if act.item.type = .ACTION then
        let r := env.run act.obj a w.ram
        ({ w with ram := r.2 }, r.1)
      else (w, false)
    | _ => (w, false)
  else if nr = UP_KEY then
    if 0 < s.m_top then
      ({ w with walker := { s with m_top := s.m_top - 1,
                                   m_ix := (w.saved.get? (s.m_top - 1)).getD 0 } }, true)
    else (w, false)
  else if nr = SELECT_KEY then
    match focus env.pgm s with
    | some (_, .enum e) =>
      if e.item.type = .BITSET then
        ({ w with ram := toggle_bit w.ram e.value s.m_bv }, true)
      else (w, false)
    | _ => (w, false)
  else (w, false)

/-- Modelled from the spec: the transitions in EDIT on an ENUM (§4.2). -/
def edit_enum (nr : Nat) (w : World) (e : enum_t) : World × Bool :=
  let s := w.walker
  let k := vec_length e.list
  let v := read_uint16 w.ram e.value
  if nr = RIGHT_KEY then
    ({ w with ram := write_uint16 w.ram e.value (next_ix k v) }, decide (next_ix k v ≠ v))
  else if nr = LEFT_KEY then
    ({ w with ram := write_uint16 w.ram e.value (prev_ix k v) }, decide (prev_ix k v ≠ v))
  else if nr = UP_KEY ∨ nr = DOWN_KEY ∨ nr = SELECT_KEY then
    ({ w with walker := { s with m_selected := false } }, true)
  else (w, false)

/-- Modelled from the spec: the transitions in EDIT on a BITSET (§4.2). -/
def edit_bitset (nr : Nat) (w : World) (e : bitset_t) : World × Bool :=
  let s := w.walker
  let k := vec_length e.list
  if nr = RIGHT_KEY then
    let bv := uint8_t (next_ix k s.m_bv)
    ({ w with walker := { s with m_bv := bv } }, decide (bv ≠ s.m_bv))
  else if nr = LEFT_KEY then
    let bv := uint8_t (prev_ix k s.m_bv)
    ({ w with walker := { s with m_bv := bv } }, decide (bv ≠ s.m_bv))
  else if nr = SELECT_KEY then
    ({ w with ram := toggle_bit w.ram e.value s.m_bv }, true)
  else if nr = UP_KEY ∨ nr = DOWN_KEY then
    ({ w with walker := { s with m_selected := false } }, true)
  else (w, false)

/-- Modelled from the spec: the transitions in EDIT on a RANGE (§4.2): one
step up or down, saturating at `[low, high]`. -/
def edit_range (nr : Nat) (w : World) (r : range_t) : World × Bool :=
  let s := w.walker
  let v := read_int16 w.ram r.value
  if nr = RIGHT_KEY then
    let v1 := clamp r.low r.high (v + 1)
    ({ w with ram := write_int16 w.ram r.value v1 }, decide (v1 ≠ v))
  else if nr = LEFT_KEY then
    let v1 := clamp r.low r.high (v - 1)
    ({ w with ram := write_int16 w.ram r.value v1 }, decide (v1 ≠ v))
  else if nr = UP_KEY ∨ nr = DOWN_KEY then
    ({ w with walker := { s with m_selected := false } }, true)
  else (w, false)

/-- Modelled from the spec: the transitions in EDIT (§4.2), by the variant of
the focused variable. -/
def edit (env : Env) (nr : Nat) (w : World) : World × Bool :=
  match focus env.pgm w.walker with
  | some (_, .enum e) =>
    if e.item.type = .ENUM then edit_enum nr w e
    else if e.item.type = .BITSET then edit_bitset nr w e
    else (w, false)
  | some (_, .range r) =>
    if r.item.type = .RANGE then edit_range nr w r else (w, false)
  | _ => (w, false)

/-- Modelled from the spec: one transition of the state machine (§4.2), by
the editing flag: EDIT when `m_selected` is set, BROWSE otherwise. -/
def step (env : Env) (nr : Nat) (w : World) : World × Bool :=
  if w.walker.m_selected then edit env nr w else browse env nr w

/-- Modelled from the spec: `Walker::on_key_down(nr)` (§4.2): one transition
of the state machine, then a render when the transition asks for it. -/
def on_key_down (env : Env) (nr : Nat) (w : World) : World :=
  let r := step env nr w
  if r.2 then { r.1 with lcd := r.1.lcd ++ env.render r.1.walker r.1.ram } else r.1

/-- The world after a sequence of key events, delivered one at a time. -/
def run_keys (env : Env) (ks : List Nat) (w : World) : World :=
  ks.foldl (fun acc k => on_key_down env k acc) w

end Walker

/-! ## Properties of walker states -/

namespace Walker

/-- The bounds on a walker state: the current index is an index of the active
list, and the stack depth lies between 1 and `STACK_MAX`. -/
def Bounds (pgm : Pgm) (s : Walker) : Prop :=
  0 ≤ s.m_ix ∧ s.m_ix < (active_items pgm s).length ∧ 1 ≤ depth s ∧ depth s ≤ STACK_MAX

/-- A menu model in which every item list has at least one item. -/
def NonEmptyLists (pgm : Pgm) : Prop :=
  ∀ a l, pgm a = some (Obj.item_list l) → vec_items l.list ≠ []

/-- Invariant of the walker under key events: both arrays have `STACK_MAX`
slots, the top is a slot, the current index is an index of the active list,
and the index saved for each frame below the top is an index of that frame's
list. -/
def Inv (pgm : Pgm) (w : World) : Prop :=
  w.walker.m_stack.length = STACK_MAX ∧
  w.saved.length = STACK_MAX ∧
  w.walker.m_top < STACK_MAX ∧
  w.walker.m_ix < (frame_items pgm w.walker.m_stack w.walker.m_top).length ∧
  ∀ k, k < w.walker.m_top →
    (w.saved.get? k).getD 0 < (frame_items pgm w.walker.m_stack k).length

end Walker

/-! ## Example menu models -/

namespace Example

/-- A menu model whose root list, at address 1, is authored with no item. -/
def empty_pgm : Pgm
  | 1 => some (Obj.item_list (MENU "Root" []))
  | _ => none

/-- A menu model: the root list at address 1 holds a symbol, a range over
`-2 .. 3` with its cell at RAM address 100, and a sub-menu. -/
def demo_pgm : Pgm
  | 1 => some (Obj.item_list (MENU "Root" [2, 3, 4]))
  | 2 => some (Obj.item (MENU_SYMB "About"))
  | 3 => some (Obj.range (MENU_RANGE "Level" (-2) 3 100))
  | 4 => some (Obj.item_list (MENU "More" [2]))
  | _ => none

/-- An environment over `demo_pgm`: handlers that ask for a render and leave
RAM alone, a renderer that prints the current index. -/
def demo_env : Env :=
  { pgm := demo_pgm
    run := fun _ _ ram => (true, ram)
    render := fun s _ => [Out.text (toString s.m_ix)] }

/-- An environment over `empty_pgm`. -/
def empty_env : Env := { demo_env with pgm := empty_pgm }

/-- A menu model whose root list, at address 1, holds one sub-menu, itself
authored with no item. -/
def hollow_pgm : Pgm
  | 1 => some (Obj.item_list (MENU "Root" [2]))
  | 2 => some (Obj.item_list (MENU "Hollow" []))
  | _ => none

/-- An environment over `hollow_pgm`. -/
def hollow_env : Env := { demo_env with pgm := hollow_pgm }

/-- RAM with every word zero. -/
def zero_ram : Ram := fun _ => 0

/-- The walker of `demo_env` after one RIGHT from the start: the focus is the
range item, whose cell holds 0. -/
def range_focus : World :=
  Walker.run_keys demo_env [Walker.RIGHT_KEY] (Walker.init none (some 1) zero_ram)

end Example

end Menu

/-! ## DS18B20 scratchpad read (`DS18B20.cpp` lines 40-51) -/

namespace DS18B20

/-- Operations the driver calls that are declared outside `DS18B20.cpp`, as
transformers of the bus state `β`: `match_rom()` of the device base class, and
`write`, `begin`, `read`, `end` of the 1-Wire pin `_pin`. -/
structure OneWire (β : Type) where
  match_rom : β → Bool × β
  write : Nat → β → β
  pin_begin : β → β
  read : β → Nat × β
  pin_end : β → Nat × β

/-- Calls made on the bus, with the value passed or returned. -/
inductive Event where
  | match_rom (ok : Bool)
  | write (value : Nat)
  | pin_begin
  | read (value : Nat)
  | pin_end (result : Nat)
  deriving DecidableEq, Repr

/-- The device: the bus state, the calls made on the bus so far, and the
memory from `&_scratchpad` on, byte by byte (offsets from `sizeof(_scratchpad)`
on lie behind the scratchpad). -/
structure Device (β : Type) where
  pin : β
  log : List Event
  scratchpad : Nat → Nat

/-- The loop `for (uint8_t i = 0; i < sizeof(_scratchpad); i++) *ptr++ =
_pin->read();` from counter `i` and pointer offset `ptr` on; `fuel` bounds the
number of iterations. -/
def read_loop {β : Type} (bus : OneWire β) (size : Nat) :
    Nat → Nat → Nat → Device β → Option (Device β)
  | 0, _, _, _ => none
  | fuel + 1, i, ptr, d =>
    if i < size then
      let r := bus.read d.pin
      read_loop bus size fuel (uint8_t (i + 1)) (ptr + 1)
        { pin := r.2
          log := d.log ++ [Event.read r.1]
          scratchpad := Function.update d.scratchpad ptr (uint8_t r.1) }
    else some d

/-- The function `DS18B20::read_scratchpad()`. The command code
`READ_SCRATCHPAD` and `size = sizeof(_scratchpad)` come from the header. -/
def read_scratchpad {β : Type} (bus : OneWire β) (READ_SCRATCHPAD size fuel : Nat)
    (d : Device β) : Option (Bool × Device β) :=
  let m := bus.match_rom d.pin
  let d1 : Device β := { d with pin := m.2, log := d.log ++ [Event.match_rom m.1] }
  if !m.1 then some (false, d1)
  else
    let d2 : Device β :=
      { d1 with pin := bus.write READ_SCRATCHPAD d1.pin,
                log := d1.log ++ [Event.write READ_SCRATCHPAD] }
    let d3 : Device β :=
      { d2 with pin := bus.pin_begin d2.pin, log := d2.log ++ [Event.pin_begin] }
    match read_loop bus size fuel 0 0 d3 with
    | none => none
    | some d4 =>
      let e := bus.pin_end d4.pin
      some (e.1 == 0, { d4 with pin := e.2, log := d4.log ++ [Event.pin_end e.1] })

/-- The bytes of `n` successive reads of the bus, in arrival order, and the
bus state after them. -/
def reads {β : Type} (bus : OneWire β) : Nat → β → List Nat × β
  | 0, p => ([], p)
  | n + 1, p =>
    let r := bus.read p
    let rest := reads bus n r.2
    (r.1 :: rest.1, rest.2)

/-- Memory after storing the bytes `bs` at consecutive offsets from `ptr`. -/
def store : List Nat → Nat → (Nat → Nat) → (Nat → Nat)
  | [], _, mem => mem
  | b :: bs, ptr, mem => store bs (ptr + 1) (Function.update mem ptr (uint8_t b))

/-- The bus state once `match_rom`, the command write and `begin` are done. -/
def after_begin {β : Type} (bus : OneWire β) (READ_SCRATCHPAD : Nat) (d : Device β) : β :=
  bus.pin_begin (bus.write READ_SCRATCHPAD (bus.match_rom d.pin).2)

/-- The `size` bytes that arrive after `begin`, and the bus state after them. -/
def arrival {β : Type} (bus : OneWire β) (READ_SCRATCHPAD size : Nat) (d : Device β) :
    List Nat × β :=
  reads bus size (after_begin bus READ_SCRATCHPAD d)

/-- A bus that answers from a queue of bytes: `match_rom` succeeds when a
byte is waiting, `read` takes the next byte, `end` reports the number of bytes
left over. -/
def queue_bus : OneWire (List Nat) :=
  { match_rom := fun q => (!q.isEmpty, q)
    write := fun _ q => q
    pin_begin := fun q => q
    read := fun q => (q.headD 0, q.tail)
    pin_end := fun q => (q.length, q) }

/-- A device on `queue_bus` with the given bytes waiting, nothing logged and a
zeroed scratchpad. -/
def queue_device (q : List Nat) : Device (List Nat) :=
  { pin := q, log := [], scratchpad := fun _ => 0 }

end DS18B20

namespace Menu

/-! ## Theorems: data model, constructor, keys, controller -/

/-- Folding `MENU_ITEM` over the items appends their addresses, in order. -/
theorem foldl_MENU_ITEM (items : List Nat) (d : Decl) :
    items.foldl MENU_ITEM d = { d with list := d.list ++ items.map some } := by
  induction items generalizing d with
  | nil => simp
  | cons a rest ih => simp [List.foldl, ih, MENU_ITEM]

/-- The vector of an authored menu: the item addresses, then the null entry. -/
theorem MENU_list (name : str_P) (items : List Nat) :
    (MENU name items).list = items.map some ++ [none] := by
  simp [MENU, MENU_END, MENU_BEGIN, foldl_MENU_ITEM]

/-- Scanning non-null entries followed by a null entry stops at the null. -/
theorem vec_items_map_some (items : List Nat) (rest : item_vec_P) :
    vec_items (items.map some ++ none :: rest) = items := by
  induction items with
  | nil => simp [vec_items]
  | cons a tl ih => simp [vec_items, ih]

/-- C7: the item list authored as `MENU_BEGIN(var,name) MENU_ITEM(i_1) ...
MENU_ITEM(i_n) MENU_END(var)` has tag `ITEM_LIST` and display name `name`; its
vector has `n + 1` entries, the first `n` being the non-null addresses of
`i_1 .. i_n` in declaration order and the last the null entry; scanning up to
the first null yields exactly `i_1 .. i_n`, so the list length is `n`. -/
theorem MENU_vector (name : str_P) (items : List Nat) :
    (MENU name items).item.type = type_t.ITEM_LIST ∧
    (MENU name items).item.name = name ∧
    (MENU name items).list.length = items.length + 1 ∧
    (MENU name items).list.take items.length = items.map some ∧
    (∀ k, k < items.length →
      ∃ a, (MENU name items).list.get? k = some (some a) ∧ items.get? k = some a) ∧
    (MENU name items).list.get? items.length = some none ∧
    vec_items (MENU name items).list = items ∧
    vec_length (MENU name items).list = items.length := by
  have hl := MENU_list name items
  refine ⟨rfl, ?_, ?_, ?_, ?_, ?_, ?_, ?_⟩
  · simp [MENU, MENU_END, MENU_BEGIN, foldl_MENU_ITEM]
  · simp [hl]
  · rw [hl, List.take_append_of_le_length (by simp)]
    simp
  · intro k hk
    refine ⟨items.get ⟨k, hk⟩, ?_, ?_⟩
    · rw [hl]
      simp [List.getElem?_append_left, hk]
    · simp
  · rw [hl]
    simp [List.getElem?_append_right]
  · rw [hl]
    exact vec_items_map_some items []
  · unfold vec_length
    rw [hl, vec_items_map_some items []]

/-- C8: every item produced by the authoring macros carries the tag of its
variant and the fields given to it (for `MENU_RANGE`, bounds written as
`int16_t` values); the six tags are pairwise distinct; a BITSET item is an
`enum_t` like an ENUM item and differs from it only in its tag. -/
theorem authored_tags (name : str_P) (d : Decl) (type_list : item_vec_P) (value obj : Nat)
    (low high : Int) (hlow : isInt16 low) (hhigh : isInt16 high) :
    MENU_SYMB name = { type := type_t.ITEM, name := name } ∧
    ((MENU_END d).item.type = type_t.ITEM_LIST ∧ (MENU_END d).item.name = d.name) ∧
    MENU_ENUM type_list name value =
      { item := { type := type_t.ENUM, name := name }, list := type_list, value := value } ∧
    MENU_BITSET type_list name value =
      { item := { type := type_t.BITSET, name := name }, list := type_list, value := value } ∧
    MENU_RANGE name low high value =
      { item := { type := type_t.RANGE, name := name }, low := low, high := high,
        value := value } ∧
    MENU_ACTION name obj = { item := { type := type_t.ACTION, name := name }, obj := obj } ∧
    [type_t.ITEM, type_t.ITEM_LIST, type_t.ENUM, type_t.BITSET, type_t.RANGE,
      type_t.ACTION].Nodup ∧
    (∀ s t : type_t, s.code = t.code → s = t) ∧
    bitset_t = enum_t ∧
    MENU_BITSET type_list name value =
      { MENU_ENUM type_list name value with item := { type := type_t.BITSET, name := name } } ∧
    (MENU_BITSET type_list name value).list = (MENU_ENUM type_list name value).list ∧
    (MENU_BITSET type_list name value).value = (MENU_ENUM type_list name value).value := by
  have h16 : ∀ i : Int, isInt16 i → int16_t i = i := by
    intro i hi
    unfold isInt16 at hi
    unfold int16_t
    omega
  refine ⟨rfl, ⟨rfl, rfl⟩, rfl, rfl, ?_, rfl, by decide, ?_, rfl, rfl, rfl, rfl⟩
  · simp [MENU_RANGE, h16 low hlow, h16 high hhigh]
  · intro s t h
    cases s <;> cases t <;> first | rfl | (exact absurd h (by decide))

/-- Witness for `authored_tags`: at bounds `-5 .. 120` the RANGE item keeps the
bounds as written. -/
theorem authored_tags_witness :
    isInt16 (-5) ∧ isInt16 120 ∧
    MENU_RANGE "Level" (-5) 120 7 =
      { item := { type := type_t.RANGE, name := "Level" }, low := -5, high := 120,
        value := 7 } :=
  ⟨by decide, by decide,
    (authored_tags "Level" (MENU_BEGIN "m") [] 7 0 (-5) 120 (by decide) (by decide)).2.2.2.2.1⟩

namespace Walker

/-- C2: for every root list and every LCD device the constructor yields stack
depth 1 (`m_top = 0`) with `m_stack[0] = root` as the active list, `m_ix = 0`,
`m_bv = 0` and `m_selected = false`; the device only determines `m_out`. -/
theorem ctor_state (lcd : Option Nat) (root : item_list_P) :
    (ctor lcd root).m_top = 0 ∧
    depth (ctor lcd root) = 1 ∧
    (ctor lcd root).m_stack.get? 0 = some root ∧
    active (ctor lcd root) = root ∧
    (ctor lcd root).m_ix = 0 ∧
    (ctor lcd root).m_bv = 0 ∧
    (ctor lcd root).m_selected = false ∧
    (ctor lcd root).m_out = lcd ∧
    (∀ lcd2 : Option Nat, { ctor lcd2 root with m_out := lcd } = ctor lcd root) := by
  refine ⟨rfl, rfl, rfl, rfl, rfl, rfl, rfl, rfl, fun _ => rfl⟩

/-- C6: the key alphabet is `NO_KEY = 0` and the five codes `SELECT_KEY = 1`,
`LEFT_KEY = 2`, `DOWN_KEY = 3`, `UP_KEY = 4`, `RIGHT_KEY = 5`, which are
non-zero and pairwise distinct; every code fits a `uint8_t`. -/
theorem key_codes :
    NO_KEY = 0 ∧ SELECT_KEY = 1 ∧ LEFT_KEY = 2 ∧ DOWN_KEY = 3 ∧ UP_KEY = 4 ∧ RIGHT_KEY = 5 ∧
    keys.Nodup ∧
    keys.filter (fun k => decide (k ≠ 0)) = [SELECT_KEY, LEFT_KEY, DOWN_KEY, UP_KEY, RIGHT_KEY] ∧
    (∀ k ∈ keys, uint8_t k = k) := by
  refine ⟨rfl, rfl, rfl, rfl, rfl, rfl, by decide, by decide, by decide⟩

/-- C9: `begin()` appends to the output exactly the clear directive followed
by the rendering of the walker state it was called in, and leaves the walker,
the saved indices and the value cells as they were. -/
theorem begin_output (render : Walker → Ram → List Out) (w : World) :
    (begin render w).lcd = w.lcd ++ ([Out.clear] ++ render w.walker w.ram) ∧
    ((begin render w).lcd.drop w.lcd.length).head? = some Out.clear ∧
    ((begin render w).lcd.drop w.lcd.length).tail = render w.walker w.ram ∧
    (begin render w).walker = w.walker ∧
    (begin render w).saved = w.saved ∧
    (begin render w).ram = w.ram := by
  refine ⟨by simp [begin], by simp [begin], by simp [begin], rfl, rfl, rfl⟩

end Walker

namespace KeypadController

/-- The controller forwards exactly the code it was given. -/
theorem forwarded_eq (self : KeypadController) (nr : Nat) : forwarded self nr = [nr] := by
  simp [forwarded, on_key_down, record]

/-- C4, as stated, fails: the code 200 is a `uint8_t`, and the key forwarded
for it is 200, none of the six key symbols. -/
theorem forwarded_not_key :
    ¬ (∀ (self : KeypadController) (nr : Nat), nr < 256 →
        ∀ k ∈ forwarded self nr, k ∈ Walker.keys) := by
  intro h
  have h200 := h (ctor 0) 200 (by decide) 200 (by simp [forwarded_eq])
  revert h200
  decide

/-- C4, amended: for every key code the controller forwards that code
itself, once; the forwarded key is one of the six key symbols exactly when
the code is one of `0 .. 5`. -/
theorem forwarded_identity (self : KeypadController) (nr : Nat) :
    forwarded self nr = [nr] ∧
    ((∀ k ∈ forwarded self nr, k ∈ Walker.keys) ↔ nr ≤ 5) := by
  refine ⟨forwarded_eq self nr, ?_⟩
  rw [forwarded_eq]
  simp only [List.mem_singleton, forall_eq]
  simp [Walker.keys, Walker.NO_KEY, Walker.SELECT_KEY, Walker.LEFT_KEY, Walker.DOWN_KEY,
    Walker.UP_KEY, Walker.RIGHT_KEY]
  omega

/-- C5: whatever `Walker::on_key_down` does, the controller's
`on_key_down(nr)` has on the controlled walker exactly the effect of one call
of it with the same `nr`; the controller itself and every other walker are
unchanged. -/
theorem on_key_down_delegates {σ : Type} (walker_on_key_down : Nat → σ → σ)
    (self : KeypadController) (nr : Nat) (heap : Nat → σ) :
    (on_key_down walker_on_key_down self nr heap).1 = self ∧
    (on_key_down walker_on_key_down self nr heap).1.m_walker = self.m_walker ∧
    (on_key_down walker_on_key_down self nr heap).2 self.m_walker =
      walker_on_key_down nr (heap self.m_walker) ∧
    (∀ a, a ≠ self.m_walker → (on_key_down walker_on_key_down self nr heap).2 a = heap a) := by
  refine ⟨rfl, rfl, by simp [on_key_down], ?_⟩
  intro a ha
  simp [on_key_down, Function.update, ha]

end KeypadController

end Menu

/-! ## Theorems: walker invariant and range editing -/

namespace Menu
namespace Walker

/-- The next sibling of any index of a non-empty list is an index of the list. -/
theorem next_ix_lt {n : Nat} (ix : Nat) (h : 0 < n) : next_ix n ix < n := by
  unfold next_ix; split <;> omega

/-- The previous sibling of an index of a list is an index of the list. -/
theorem prev_ix_lt {n ix : Nat} (h : ix < n) : prev_ix n ix < n := by
  unfold prev_ix; split <;> omega

/-- Conversion to `uint8_t` never increases a value. -/
theorem uint8_t_le (n : Nat) : uint8_t n ≤ n := Nat.mod_le _ _

/-- The focus is an object of program memory, at the address reported. -/
theorem focus_pgm {pgm : Pgm} {s : Walker} {a : Nat} {o : Obj}
    (h : focus pgm s = some (a, o)) : pgm a = some o := by
  unfold focus at h
  split at h
  · exact absurd h (by simp)
  · split at h
    · exact absurd h (by simp)
    · simp only [Option.some.injEq, Prod.mk.injEq] at h
      obtain ⟨rfl, rfl⟩ := h
      assumption

/-- Assigning a stack slot leaves the list seen by every other slot. -/
theorem frame_items_set_ne (pgm : Pgm) (stack : List item_list_P) (k j : Nat) (p : item_list_P)
    (h : j ≠ k) : frame_items pgm (stack.set j p) k = frame_items pgm stack k := by
  unfold frame_items
  simp [List.getElem?_set_ne h]

/-- The slot assigned the address of an item list sees the items of that list. -/
theorem frame_items_set_eq (pgm : Pgm) (stack : List item_list_P) (j a : Nat) (l : item_list_t)
    (hj : j < stack.length) (h : pgm a = some (Obj.item_list l)) :
    frame_items pgm (stack.set j (some a)) j = vec_items l.list := by
  unfold frame_items
  simp [List.getElem?_set_self, hj, read_list, h]

/-- Transitions in BROWSE keep the invariant, in a model without empty lists. -/
theorem browse_inv (env : Env) (nr : Nat) (w : World) (hne : NonEmptyLists env.pgm)
    (h : Inv env.pgm w) : Inv env.pgm (browse env nr w).1 := by
  have h0 := h
  obtain ⟨hs, hv, ht, hi, hk⟩ := h
  have hpos : 0 < (frame_items env.pgm w.walker.m_stack w.walker.m_top).length := by omega
  unfold browse
  simp only [active_items]
  split_ifs with h1 h2 h3 h4 h5 h6
  · exact ⟨hs, hv, ht, lt_of_le_of_lt (uint8_t_le _) (next_ix_lt _ hpos), hk⟩
  · exact ⟨hs, hv, ht, lt_of_le_of_lt (uint8_t_le _) (prev_ix_lt hi), hk⟩
  · split
    · rename_i a l hf
      split_ifs with hc
      · have hp := focus_pgm hf
        refine ⟨by simpa using hs, by simpa using hv, hc.2, ?_, ?_⟩
        · show 0 < (frame_items env.pgm (w.walker.m_stack.set (w.walker.m_top + 1) (some a))
            (w.walker.m_top + 1)).length
          rw [frame_items_set_eq _ _ _ _ _ (by unfold STACK_MAX at *; omega) hp]
          exact List.length_pos.mpr (hne a l hp)
        · intro k hlt
          show ((w.saved.set w.walker.m_top w.walker.m_ix).get? k).getD 0 <
            (frame_items env.pgm (w.walker.m_stack.set (w.walker.m_top + 1) (some a)) k).length
          have hlt2 : k < w.walker.m_top + 1 := hlt
          rw [frame_items_set_ne _ _ _ _ _ (by omega)]
          by_cases hkt : k = w.walker.m_top
          · subst hkt
            simpa [List.getElem?_set_self, hv, ht] using hi
          · have := hk k (by omega)
            simpa [List.getElem?_set_ne (Ne.symm hkt)] using this
      · exact h0
    · split_ifs
      · exact ⟨hs, hv, ht, hi, hk⟩
      · exact h0
    · split_ifs
      · exact ⟨hs, hv, ht, hi, hk⟩
      · exact h0
    · split_ifs
      · exact ⟨hs, hv, ht, hi, hk⟩
      · exact h0
    · exact h0
  · refine ⟨hs, hv, ?_, ?_, ?_⟩
    · show w.walker.m_top - 1 < STACK_MAX
      omega
    · exact hk (w.walker.m_top - 1) (by omega)
    · intro k hlt
      exact hk k (by have : k < w.walker.m_top - 1 := hlt; omega)
  · exact h0
  · split
    · split_ifs
      · exact ⟨hs, hv, ht, hi, hk⟩
      · exact h0
    · exact h0
  · exact h0

/-- Editing an ENUM leaves stack, top, index and saved indices alone. -/
theorem edit_enum_nav (nr : Nat) (w : World) (e : enum_t) :
    (edit_enum nr w e).1.walker.m_stack = w.walker.m_stack ∧
    (edit_enum nr w e).1.walker.m_top = w.walker.m_top ∧
    (edit_enum nr w e).1.walker.m_ix = w.walker.m_ix ∧
    (edit_enum nr w e).1.saved = w.saved := by
  unfold edit_enum
  simp only []
  split_ifs <;> exact ⟨rfl, rfl, rfl, rfl⟩

/-- Editing a BITSET leaves stack, top, index and saved indices alone. -/
theorem edit_bitset_nav (nr : Nat) (w : World) (e : bitset_t) :
    (edit_bitset nr w e).1.walker.m_stack = w.walker.m_stack ∧
    (edit_bitset nr w e).1.walker.m_top = w.walker.m_top ∧
    (edit_bitset nr w e).1.walker.m_ix = w.walker.m_ix ∧
    (edit_bitset nr w e).1.saved = w.saved := by
  unfold edit_bitset
  simp only []
  split_ifs <;> exact ⟨rfl, rfl, rfl, rfl⟩

/-- Editing a RANGE leaves stack, top, index and saved indices alone. -/
theorem edit_range_nav (nr : Nat) (w : World) (r : range_t) :
    (edit_range nr w r).1.walker.m_stack = w.walker.m_stack ∧
    (edit_range nr w r).1.walker.m_top = w.walker.m_top ∧
    (edit_range nr w r).1.walker.m_ix = w.walker.m_ix ∧
    (edit_range nr w r).1.saved = w.saved := by
  unfold edit_range
  simp only []
  split_ifs <;> exact ⟨rfl, rfl, rfl, rfl⟩

/-- Transitions in EDIT leave stack, top, index and saved indices alone. -/
theorem edit_nav (env : Env) (nr : Nat) (w : World) :
    (edit env nr w).1.walker.m_stack = w.walker.m_stack ∧
    (edit env nr w).1.walker.m_top = w.walker.m_top ∧
    (edit env nr w).1.walker.m_ix = w.walker.m_ix ∧
    (edit env nr w).1.saved = w.saved := by
  unfold edit
  split
  · split_ifs
    · exact edit_enum_nav _ _ _
    · exact edit_bitset_nav _ _ _
    · exact ⟨rfl, rfl, rfl, rfl⟩
  · split_ifs
    · exact edit_range_nav _ _ _
    · exact ⟨rfl, rfl, rfl, rfl⟩
  · exact ⟨rfl, rfl, rfl, rfl⟩

/-- The invariant depends on stack, top, index and saved indices only. -/
theorem Inv_congr (pgm : Pgm) (w w2 : World)
    (h1 : w2.walker.m_stack = w.walker.m_stack) (h2 : w2.walker.m_top = w.walker.m_top)
    (h3 : w2.walker.m_ix = w.walker.m_ix) (h4 : w2.saved = w.saved)
    (h : Inv pgm w) : Inv pgm w2 := by
  unfold Inv at *
  rw [h1, h2, h3, h4]
  exact h

/-- Rendering changes neither the walker nor the saved indices nor RAM. -/
theorem on_key_down_fields (env : Env) (nr : Nat) (w : World) :
    (on_key_down env nr w).walker = (step env nr w).1.walker ∧
    (on_key_down env nr w).saved = (step env nr w).1.saved ∧
    (on_key_down env nr w).ram = (step env nr w).1.ram := by
  unfold on_key_down
  simp only []
  split_ifs <;> exact ⟨rfl, rfl, rfl⟩

/-- Every key event keeps the invariant, in a model without empty lists. -/
theorem on_key_down_inv (env : Env) (nr : Nat) (w : World) (hne : NonEmptyLists env.pgm)
    (h : Inv env.pgm w) : Inv env.pgm (on_key_down env nr w) := by
  have hstep : Inv env.pgm (step env nr w).1 := by
    unfold step
    split_ifs
    · obtain ⟨h1, h2, h3, h4⟩ := edit_nav env nr w
      exact Inv_congr _ _ _ h1 h2 h3 h4 h
    · exact browse_inv env nr w hne h
  obtain ⟨h1, h2, _⟩ := on_key_down_fields env nr w
  exact Inv_congr _ _ _ (by rw [h1]) (by rw [h1]) (by rw [h1]) h2 hstep

/-- Every sequence of key events keeps the invariant. -/
theorem run_keys_inv (env : Env) (ks : List Nat) (w : World) (hne : NonEmptyLists env.pgm)
    (h : Inv env.pgm w) : Inv env.pgm (run_keys env ks w) := by
  induction ks generalizing w with
  | nil => exact h
  | cons k rest ih => exact ih _ (on_key_down_inv env k w hne h)

/-- The initial world satisfies the invariant when the root is a list of the
model and the model has no empty list. -/
theorem init_inv (pgm : Pgm) (lcd : Option Nat) (a : Nat) (l : item_list_t) (ram : Ram)
    (hroot : pgm a = some (Obj.item_list l)) (hne : NonEmptyLists pgm) :
    Inv pgm (init lcd (some a) ram) := by
  refine ⟨rfl, rfl, (by show (0 : Nat) < 8; omega), ?_, ?_⟩
  · show 0 < (frame_items pgm ((List.replicate STACK_MAX none).set 0 (some a)) 0).length
    rw [frame_items_set_eq _ _ _ _ _ (by decide) hroot]
    exact List.length_pos.mpr (hne a l hroot)
  · intro k hk
    exact absurd hk (Nat.not_lt_zero k)

/-- The invariant gives the bounds on index and depth. -/
theorem Inv_bounds (pgm : Pgm) (w : World) (h : Inv pgm w) : Bounds pgm w.walker := by
  obtain ⟨_, _, ht, hi, _⟩ := h
  refine ⟨Nat.zero_le _, hi, ?_, ?_⟩
  · unfold depth; omega
  · unfold depth; omega


/-- Conversion to `int16_t` keeps a representable value. -/
theorem int16_t_of_isInt16 (i : Int) (h : isInt16 i) : int16_t i = i := by
  unfold isInt16 at h
  unfold int16_t
  omega

/-- Reading back an `int16_t` cell gives the representable value written. -/
theorem read_write_int16 (ram : Ram) (a : Nat) (i : Int) (h : isInt16 i) :
    read_int16 (write_int16 ram a i) a = i := by
  unfold isInt16 at h
  unfold read_int16 write_int16 int16_t
  simp only [Function.update_same]
  rw [Int.toNat_of_nonneg (Int.emod_nonneg _ (by decide))]
  omega

/-- Key events of a concatenation are delivered in order. -/
theorem run_keys_append (env : Env) (ks1 ks2 : List Nat) (w : World) :
    run_keys env (ks1 ++ ks2) w = run_keys env ks2 (run_keys env ks1 w) := by
  unfold run_keys
  exact List.foldl_append _ _ _ _

/-- The first key event is delivered first. -/
theorem run_keys_cons (env : Env) (k : Nat) (ks : List Nat) (w : World) :
    run_keys env (k :: ks) w = run_keys env ks (on_key_down env k w) := rfl

/-- In BROWSE, DOWN on a focused RANGE sets the editing flag and nothing else. -/
theorem down_on_range (env : Env) (w : World) (a : Nat) (r : range_t)
    (hb : w.walker.m_selected = false)
    (hf : focus env.pgm w.walker = some (a, Obj.range r))
    (ht : r.item.type = type_t.RANGE) :
    (on_key_down env DOWN_KEY w).walker = { w.walker with m_selected := true } ∧
    (on_key_down env DOWN_KEY w).ram = w.ram := by
  obtain ⟨h1, _, h3⟩ := on_key_down_fields env DOWN_KEY w
  rw [h1, h3]
  have hs : step env DOWN_KEY w =
      ({ w with walker := { w.walker with m_selected := true } }, true) := by
    unfold step
    rw [hb]
    simp only [Bool.false_eq_true, if_false]
    unfold browse
    rw [if_neg (by decide), if_neg (by decide), if_pos rfl]
    simp only [hf, ht, if_true]
  rw [hs]
  exact ⟨rfl, rfl⟩

/-- In EDIT with a RANGE in focus, the transition is the one of the range. -/
theorem edit_on_range (env : Env) (nr : Nat) (w : World) (a : Nat) (r : range_t)
    (hb : w.walker.m_selected = true)
    (hf : focus env.pgm w.walker = some (a, Obj.range r))
    (ht : r.item.type = type_t.RANGE) :
    step env nr w = edit_range nr w r := by
  unfold step
  rw [hb]
  simp only [if_true]
  unfold edit
  simp only [hf, ht, if_true]

/-- In EDIT on a RANGE, RIGHT writes the clamped successor of the cell. -/
theorem right_in_edit (env : Env) (w : World) (a : Nat) (r : range_t)
    (hb : w.walker.m_selected = true)
    (hf : focus env.pgm w.walker = some (a, Obj.range r))
    (ht : r.item.type = type_t.RANGE) :
    (on_key_down env RIGHT_KEY w).walker = w.walker ∧
    (on_key_down env RIGHT_KEY w).ram =
      write_int16 w.ram r.value (clamp r.low r.high (read_int16 w.ram r.value + 1)) := by
  obtain ⟨h1, _, h3⟩ := on_key_down_fields env RIGHT_KEY w
  rw [h1, h3, edit_on_range env _ w a r hb hf ht]
  unfold edit_range
  rw [if_pos rfl]
  exact ⟨rfl, rfl⟩

/-- In EDIT on a RANGE, LEFT writes the clamped predecessor of the cell. -/
theorem left_in_edit (env : Env) (w : World) (a : Nat) (r : range_t)
    (hb : w.walker.m_selected = true)
    (hf : focus env.pgm w.walker = some (a, Obj.range r))
    (ht : r.item.type = type_t.RANGE) :
    (on_key_down env LEFT_KEY w).walker = w.walker ∧
    (on_key_down env LEFT_KEY w).ram =
      write_int16 w.ram r.value (clamp r.low r.high (read_int16 w.ram r.value - 1)) := by
  obtain ⟨h1, _, h3⟩ := on_key_down_fields env LEFT_KEY w
  rw [h1, h3, edit_on_range env _ w a r hb hf ht]
  unfold edit_range
  rw [if_neg (by decide), if_pos rfl]
  exact ⟨rfl, rfl⟩

/-- In EDIT on a RANGE, UP clears the editing flag and leaves the cell. -/
theorem up_in_edit (env : Env) (w : World) (a : Nat) (r : range_t)
    (hb : w.walker.m_selected = true)
    (hf : focus env.pgm w.walker = some (a, Obj.range r))
    (ht : r.item.type = type_t.RANGE) :
    (on_key_down env UP_KEY w).walker = { w.walker with m_selected := false } ∧
    (on_key_down env UP_KEY w).ram = w.ram := by
  obtain ⟨h1, _, h3⟩ := on_key_down_fields env UP_KEY w
  rw [h1, h3, edit_on_range env _ w a r hb hf ht]
  unfold edit_range
  rw [if_neg (by decide), if_neg (by decide), if_pos (Or.inl rfl)]
  exact ⟨rfl, rfl⟩

/-- In EDIT on a RANGE whose cell holds `v` within the bounds, `n` RIGHT
presses leave `min high (v + n)` in the cell. -/
theorem right_presses (env : Env) (a : Nat) (r : range_t) (ht : r.item.type = type_t.RANGE)
    (hhi : isInt16 r.high) (n : Nat) :
    ∀ (w : World) (v : Int), w.walker.m_selected = true →
      focus env.pgm w.walker = some (a, Obj.range r) →
      read_int16 w.ram r.value = v → r.low ≤ v → v ≤ r.high →
      (run_keys env (List.replicate n RIGHT_KEY) w).walker = w.walker ∧
      read_int16 (run_keys env (List.replicate n RIGHT_KEY) w).ram r.value =
        min r.high (v + n) := by
  induction n with
  | zero =>
    intro w v _ _ hv _ hvh
    refine ⟨rfl, ?_⟩
    show read_int16 w.ram r.value = _
    rw [hv]
    simp [hvh]
  | succ n ih =>
    intro w v hb hf hv hvl hvh
    obtain ⟨hw, hr⟩ := right_in_edit env w a r hb hf ht
    rw [List.replicate_succ, run_keys_cons]
    have hc : clamp r.low r.high (v + 1) = min r.high (v + 1) := by
      unfold clamp
      omega
    have h16 : isInt16 (read_int16 w.ram r.value) := by
      unfold read_int16 int16_t isInt16
      omega
    have hrd : read_int16 (on_key_down env RIGHT_KEY w).ram r.value = min r.high (v + 1) := by
      rw [hr, hv, hc]
      apply read_write_int16
      unfold isInt16 at *
      rw [hv] at h16
      omega
    obtain ⟨hw2, hr2⟩ := ih (on_key_down env RIGHT_KEY w) (min r.high (v + 1))
      (by rw [hw]; exact hb) (by rw [hw]; exact hf) hrd (by omega) (by omega)
    refine ⟨by rw [hw2, hw], ?_⟩
    rw [hr2]
    push_cast
    omega


/-- In EDIT on a RANGE whose cell holds `v` within the bounds, `n` LEFT
presses leave `max low (v - n)` in the cell. -/
theorem left_presses (env : Env) (a : Nat) (r : range_t) (ht : r.item.type = type_t.RANGE)
    (hlo : isInt16 r.low) (n : Nat) :
    ∀ (w : World) (v : Int), w.walker.m_selected = true →
      focus env.pgm w.walker = some (a, Obj.range r) →
      read_int16 w.ram r.value = v → r.low ≤ v → v ≤ r.high →
      (run_keys env (List.replicate n LEFT_KEY) w).walker = w.walker ∧
      read_int16 (run_keys env (List.replicate n LEFT_KEY) w).ram r.value =
        max r.low (v - n) := by
  induction n with
  | zero =>
    intro w v _ _ hv hvl _
    refine ⟨rfl, ?_⟩
    show read_int16 w.ram r.value = _
    rw [hv]
    simp [hvl]
  | succ n ih =>
    intro w v hb hf hv hvl hvh
    obtain ⟨hw, hr⟩ := left_in_edit env w a r hb hf ht
    rw [List.replicate_succ, run_keys_cons]
    have hc : clamp r.low r.high (v - 1) = max r.low (v - 1) := by
      unfold clamp
      omega
    have h16 : isInt16 (read_int16 w.ram r.value) := by
      unfold read_int16 int16_t isInt16
      omega
    have hrd : read_int16 (on_key_down env LEFT_KEY w).ram r.value = max r.low (v - 1) := by
      rw [hr, hv, hc]
      apply read_write_int16
      unfold isInt16 at *
      rw [hv] at h16
      omega
    obtain ⟨hw2, hr2⟩ := ih (on_key_down env LEFT_KEY w) (max r.low (v - 1))
      (by rw [hw]; exact hb) (by rw [hw]; exact hf) hrd (by omega) (by omega)
    refine ⟨by rw [hw2, hw], ?_⟩
    rw [hr2]
    push_cast
    omega

/-- C3: take a RANGE item in focus in BROWSE, with `int16_t` bounds `low` and
`high`, whose cell holds `v` with `low ≤ v ≤ high`. DOWN, then `n` times RIGHT,
then UP leaves `min high (v + n)` in the cell and the walker back in BROWSE, as
it was; with LEFT in place of RIGHT the cell ends at `max low (v - n)`. Both
results are `int16_t` values: the cell saturates and never wraps. -/
theorem range_round_trip (env : Env) (w : World) (a : Nat) (r : range_t) (v : Int) (n : Nat)
    (hb : w.walker.m_selected = false)
    (hf : focus env.pgm w.walker = some (a, Obj.range r))
    (ht : r.item.type = type_t.RANGE)
    (hlo : isInt16 r.low) (hhi : isInt16 r.high)
    (hv : read_int16 w.ram r.value = v) (hvl : r.low ≤ v) (hvh : v ≤ r.high) :
    read_int16 (run_keys env (DOWN_KEY :: List.replicate n RIGHT_KEY ++ [UP_KEY]) w).ram
      r.value = min r.high (v + n) ∧
    (run_keys env (DOWN_KEY :: List.replicate n RIGHT_KEY ++ [UP_KEY]) w).walker.m_selected
      = false ∧
    (run_keys env (DOWN_KEY :: List.replicate n RIGHT_KEY ++ [UP_KEY]) w).walker = w.walker ∧
    read_int16 (run_keys env (DOWN_KEY :: List.replicate n LEFT_KEY ++ [UP_KEY]) w).ram
      r.value = max r.low (v - n) ∧
    (run_keys env (DOWN_KEY :: List.replicate n LEFT_KEY ++ [UP_KEY]) w).walker.m_selected
      = false ∧
    (run_keys env (DOWN_KEY :: List.replicate n LEFT_KEY ++ [UP_KEY]) w).walker = w.walker ∧
    isInt16 (min r.high (v + n)) ∧ isInt16 (max r.low (v - n)) := by
  obtain ⟨hdw, hdr⟩ := down_on_range env w a r hb hf ht
  have hsel : (on_key_down env DOWN_KEY w).walker.m_selected = true := by rw [hdw]
  have hfoc : focus env.pgm (on_key_down env DOWN_KEY w).walker = some (a, Obj.range r) := by
    rw [hdw]; exact hf
  have hval : read_int16 (on_key_down env DOWN_KEY w).ram r.value = v := by rw [hdr]; exact hv
  have hback : ({ ({ w.walker with m_selected := true } : Walker) with m_selected := false }
      : Walker) = w.walker := by
    cases hw : w.walker
    rw [hw] at hb
    simp only at hb
    simp [hb]
  obtain ⟨hrw, hrv⟩ := right_presses env a r ht hhi n _ v hsel hfoc hval hvl hvh
  obtain ⟨hlw, hlv⟩ := left_presses env a r ht hlo n _ v hsel hfoc hval hvl hvh
  obtain ⟨hruw, hrur⟩ := up_in_edit env (run_keys env (List.replicate n RIGHT_KEY)
    (on_key_down env DOWN_KEY w)) a r (by rw [hrw]; exact hsel) (by rw [hrw]; exact hfoc) ht
  obtain ⟨hluw, hlur⟩ := up_in_edit env (run_keys env (List.replicate n LEFT_KEY)
    (on_key_down env DOWN_KEY w)) a r (by rw [hlw]; exact hsel) (by rw [hlw]; exact hfoc) ht
  have hR : run_keys env (DOWN_KEY :: List.replicate n RIGHT_KEY ++ [UP_KEY]) w =
      on_key_down env UP_KEY (run_keys env (List.replicate n RIGHT_KEY)
        (on_key_down env DOWN_KEY w)) := by
    rw [List.cons_append, run_keys_cons, run_keys_append]
    rfl
  have hL : run_keys env (DOWN_KEY :: List.replicate n LEFT_KEY ++ [UP_KEY]) w =
      on_key_down env UP_KEY (run_keys env (List.replicate n LEFT_KEY)
        (on_key_down env DOWN_KEY w)) := by
    rw [List.cons_append, run_keys_cons, run_keys_append]
    rfl
  rw [hR, hL, hruw, hrur, hluw, hlur, hrv, hlv, hrw, hlw, hdw, hback]
  unfold isInt16 at *
  refine ⟨rfl, hb, rfl, rfl, hb, rfl, ⟨by omega, by omega⟩, ⟨by omega, by omega⟩⟩

end Walker
end Menu

/-! ## Theorems: scratchpad read -/

namespace DS18B20

/-- Byte `k` of memory after storing `bs` from offset `ptr`. -/
theorem store_apply (bs : List Nat) (ptr : Nat) (mem : Nat → Nat) (k : Nat) :
    store bs ptr mem k =
      if ptr ≤ k ∧ k < ptr + bs.length then uint8_t ((bs.get? (k - ptr)).getD 0) else mem k := by
  induction bs generalizing ptr mem with
  | nil =>
    have c : ¬ (ptr ≤ k ∧ k < ptr + ([] : List Nat).length) := by
      simp only [List.length_nil]; omega
    rw [if_neg c]
    rfl
  | cons b rest ih =>
    rw [store, ih]
    by_cases h1 : ptr + 1 ≤ k
    · have e : k - ptr = (k - (ptr + 1)) + 1 := by omega
      have c : (ptr + 1 ≤ k ∧ k < ptr + 1 + rest.length) ↔
          (ptr ≤ k ∧ k < ptr + (b :: rest).length) := by
        simp only [List.length_cons]; omega
      simp only [c, e, List.get?_cons_succ]
      split_ifs
      · rfl
      · rw [Function.update_noteq (by omega)]
    · by_cases h2 : k = ptr
      · subst h2
        simp
      · have c1 : ¬ (ptr + 1 ≤ k ∧ k < ptr + 1 + rest.length) := by omega
        have c2 : ¬ (ptr ≤ k ∧ k < ptr + (b :: rest).length) := by omega
        rw [if_neg c1, if_neg c2, Function.update_noteq h2]

/-- Reading `n` times yields `n` bytes. -/
theorem reads_length {β : Type} (bus : OneWire β) (n : Nat) (p : β) :
    (reads bus n p).1.length = n := by
  induction n generalizing p with
  | zero => rfl
  | succ n ih => simp [reads, ih]

/-- With the counter at `i`, `n` bytes to go and fuel for them, the loop
returns: it has read `n` bytes and stored them in order from offset `i`. -/
theorem read_loop_spec {β : Type} (bus : OneWire β) (size : Nat) (hs : size ≤ 255) (n : Nat) :
    ∀ (i fuel : Nat) (d : Device β), i + n = size → n < fuel →
      read_loop bus size fuel i i d =
        some { pin := (reads bus n d.pin).2
               log := d.log ++ (reads bus n d.pin).1.map Event.read
               scratchpad := store (reads bus n d.pin).1 i d.scratchpad } := by
  induction n with
  | zero =>
    intro i fuel d hi hf
    obtain ⟨f, rfl⟩ : ∃ f, fuel = f + 1 := ⟨fuel - 1, by omega⟩
    rw [read_loop, if_neg (by omega)]
    simp [reads, store]
  | succ n ih =>
    intro i fuel d hi hf
    obtain ⟨f, rfl⟩ : ∃ f, fuel = f + 1 := ⟨fuel - 1, by omega⟩
    rw [read_loop, if_pos (by omega)]
    have hu : uint8_t (i + 1) = i + 1 := by unfold uint8_t; omega
    simp only [hu]
    rw [ih (i + 1) f _ (by omega) (by omega)]
    simp [reads, store]


/-- C10: for a scratchpad of at most 255 bytes `read_scratchpad` returns. It
returns true exactly when `match_rom()` succeeds and `end()` returns 0. When
`match_rom()` fails it returns false having made no other call on the bus
(no write of `READ_SCRATCHPAD`, no read) and with the scratchpad unchanged.
When `match_rom()` succeeds it writes `READ_SCRATCHPAD`, calls `begin()`,
stores the `sizeof(_scratchpad)` bytes that arrive, in arrival order, over the
scratchpad and nothing behind it, then calls `end()`; this also when `end()`
is non-zero and false is returned. -/
theorem read_scratchpad_spec {β : Type} (bus : OneWire β) (READ_SCRATCHPAD size fuel : Nat)
    (d : Device β) (hs : size ≤ 255) (hf : size < fuel) :
    ∃ (res : Bool) (d2 : Device β),
      read_scratchpad bus READ_SCRATCHPAD size fuel d = some (res, d2) ∧
      (res = true ↔ (bus.match_rom d.pin).1 = true ∧
        (bus.pin_end (arrival bus READ_SCRATCHPAD size d).2).1 = 0) ∧
      ((bus.match_rom d.pin).1 = false →
        res = false ∧ d2.scratchpad = d.scratchpad ∧
        d2.log = d.log ++ [Event.match_rom false] ∧
        d2.pin = (bus.match_rom d.pin).2) ∧
      ((bus.match_rom d.pin).1 = true →
        res = ((bus.pin_end (arrival bus READ_SCRATCHPAD size d).2).1 == 0) ∧
        (arrival bus READ_SCRATCHPAD size d).1.length = size ∧
        (List.range size).map d2.scratchpad =
          (arrival bus READ_SCRATCHPAD size d).1.map uint8_t ∧
        (∀ k, size ≤ k → d2.scratchpad k = d.scratchpad k) ∧
        d2.log = d.log ++ [Event.match_rom true, Event.write READ_SCRATCHPAD, Event.pin_begin]
          ++ (arrival bus READ_SCRATCHPAD size d).1.map Event.read
          ++ [Event.pin_end (bus.pin_end (arrival bus READ_SCRATCHPAD size d).2).1] ∧
        d2.pin = (bus.pin_end (arrival bus READ_SCRATCHPAD size d).2).2) := by
  cases hm : (bus.match_rom d.pin).1 with
  | false =>
    refine ⟨false, { d with pin := (bus.match_rom d.pin).2,
                            log := d.log ++ [Event.match_rom false] }, ?_, ?_, ?_, ?_⟩
    · unfold read_scratchpad
      simp [hm]
    · simp
    · intro _
      exact ⟨rfl, rfl, rfl, rfl⟩
    · intro h
      exact absurd h (by simp)
  | true =>
    have hlen := reads_length bus size (after_begin bus READ_SCRATCHPAD d)
    have hloop := read_loop_spec bus size hs size 0 fuel
      { pin := after_begin bus READ_SCRATCHPAD d
        log := d.log ++ [Event.match_rom true] ++ [Event.write READ_SCRATCHPAD]
          ++ [Event.pin_begin]
        scratchpad := d.scratchpad } (by omega) hf
    refine ⟨(bus.pin_end (arrival bus READ_SCRATCHPAD size d).2).1 == 0,
      { pin := (bus.pin_end (arrival bus READ_SCRATCHPAD size d).2).2
        log := d.log ++ [Event.match_rom true, Event.write READ_SCRATCHPAD, Event.pin_begin]
          ++ (arrival bus READ_SCRATCHPAD size d).1.map Event.read
          ++ [Event.pin_end (bus.pin_end (arrival bus READ_SCRATCHPAD size d).2).1]
        scratchpad := store (arrival bus READ_SCRATCHPAD size d).1 0 d.scratchpad },
      ?_, ?_, ?_, ?_⟩
    · unfold read_scratchpad
      simp only [hm, Bool.not_true, Bool.false_eq_true, if_false]
      unfold after_begin at hloop
      rw [hloop]
      simp [arrival, after_begin]
    · simp
    · intro h
      exact absurd h (by simp)
    · intro _
      refine ⟨rfl, hlen, ?_, ?_, rfl, rfl⟩
      · apply List.ext_get?
        intro k
        by_cases hk : k < size
        · simp [List.getElem?_range, hk, store_apply, arrival, hlen, List.getElem?_map]
        · have h1 : (List.range size).length ≤ k := by simp; omega
          have h2 : ((arrival bus READ_SCRATCHPAD size d).1.map uint8_t).length ≤ k := by
            simp [arrival, hlen]; omega
          simp only [List.get?_eq_getElem?]
          rw [List.getElem?_eq_none (by simpa using h1), List.getElem?_eq_none h2]
      · intro k hk
        show store (arrival bus READ_SCRATCHPAD size d).1 0 d.scratchpad k = d.scratchpad k
        rw [store_apply, if_neg]
        unfold arrival
        rw [hlen]
        omega


/-- Witness for `read_scratchpad_spec`: nine bytes waiting on the queue bus
end up in the nine-byte scratchpad and the call returns true. -/
theorem read_scratchpad_spec_witness :
    9 ≤ 255 ∧ 9 < 10 ∧
    ∃ (res : Bool) (d2 : Device (List Nat)),
      read_scratchpad queue_bus 190 9 10 (queue_device [80, 5, 75, 70, 127, 255, 12, 16, 28])
        = some (res, d2) ∧
      res = true ∧
      (List.range 9).map d2.scratchpad = [80, 5, 75, 70, 127, 255, 12, 16, 28] := by
  obtain ⟨res, d2, h1, h2, _, h4⟩ := read_scratchpad_spec queue_bus 190 9 10
    (queue_device [80, 5, 75, 70, 127, 255, 12, 16, 28]) (by decide) (by decide)
  refine ⟨by decide, by decide, res, d2, h1, h2.mpr ⟨rfl, rfl⟩, ?_⟩
  rw [(h4 rfl).2.2.1]
  decide

end DS18B20

/-! ## Theorems: bounds of reachable walker states -/

namespace Menu
namespace Example

/-- No item list of `demo_pgm` is empty. -/
theorem demo_nonempty : Walker.NonEmptyLists demo_pgm := by
  intro a l h
  unfold demo_pgm at h
  split at h
  · simp only [Option.some.injEq, Obj.item_list.injEq] at h
    subst h
    decide
  · exact absurd h (by simp)
  · exact absurd h (by simp)
  · simp only [Option.some.injEq, Obj.item_list.injEq] at h
    subst h
    decide
  · exact absurd h (by simp)

end Example

namespace Walker

/-- C1, as stated, fails: for the root list authored with no item, the state
built by the constructor (reachable by the empty key sequence) has current
index 0 and an active list of length 0. The same happens below the root: with
a non-empty root whose focused item is a sub-menu authored with no item, DOWN
enters it with index 0. -/
theorem empty_root_out_of_bounds :
    Example.empty_pgm 1 = some (Obj.item_list (MENU "Root" [])) ∧
    ¬ Bounds Example.empty_pgm (ctor none (some 1)) ∧
    ¬ Bounds Example.empty_pgm
      (run_keys Example.empty_env [] (init none (some 1) Example.zero_ram)).walker ∧
    Example.hollow_pgm 1 = some (Obj.item_list (MENU "Root" [2])) ∧
    Bounds Example.hollow_pgm (ctor none (some 1)) ∧
    ¬ Bounds Example.hollow_pgm
      (run_keys Example.hollow_env [DOWN_KEY] (init none (some 1) Example.zero_ram)).walker := by
  refine ⟨rfl, ?_, ?_, rfl, ?_, ?_⟩
  · intro h
    exact absurd h.2.1 (by decide)
  · intro h
    exact absurd h.2.1 (by decide)
  · exact ⟨by decide, by decide, by decide, by decide⟩
  · intro h
    exact absurd h.2.1 (by decide)

/-- C1, amended: when the root list has at least one item the constructor's
state satisfies `0 ≤ m_ix < length (active list)` and
`1 ≤ m_top + 1 ≤ STACK_MAX`; when moreover no item list of the menu model is
empty, so does every state reached from it by a finite sequence of key
codes. -/
theorem reachable_bounds (env : Env) (lcd : Option Nat) (a : Nat) (l : item_list_t) (ram : Ram)
    (hroot : env.pgm a = some (Obj.item_list l)) (hl : vec_items l.list ≠ []) :
    Bounds env.pgm (ctor lcd (some a)) ∧
    (NonEmptyLists env.pgm → ∀ ks : List Nat,
      Bounds env.pgm (run_keys env ks (init lcd (some a) ram)).walker) := by
  constructor
  · refine ⟨Nat.zero_le _, ?_, (by show 1 ≤ 0 + 1; omega), (by show 0 + 1 ≤ 8; omega)⟩
    show 0 < (frame_items env.pgm ((List.replicate STACK_MAX none).set 0 (some a)) 0).length
    rw [frame_items_set_eq _ _ _ _ _ (by decide) hroot]
    exact List.length_pos.mpr hl
  · intro hne ks
    exact Inv_bounds _ _ (run_keys_inv env ks _ hne (init_inv env.pgm lcd a l ram hroot hne))

/-- Witness for `reachable_bounds` on `demo_pgm`: the bounds hold at the start
and after walking into the sub-menu and back. -/
theorem reachable_bounds_witness :
    Example.demo_pgm 1 = some (Obj.item_list (MENU "Root" [2, 3, 4])) ∧
    vec_items (MENU "Root" [2, 3, 4]).list ≠ [] ∧
    Bounds Example.demo_pgm (ctor none (some 1)) ∧
    Bounds Example.demo_pgm
      (run_keys Example.demo_env [RIGHT_KEY, RIGHT_KEY, DOWN_KEY, RIGHT_KEY, DOWN_KEY, UP_KEY, LEFT_KEY]
        (init none (some 1) Example.zero_ram)).walker :=
  have h := reachable_bounds Example.demo_env none 1 (MENU "Root" [2, 3, 4]) Example.zero_ram
    rfl (by decide)
  ⟨rfl, by decide, h.1, h.2 Example.demo_nonempty _⟩

/-- Witness for `range_round_trip` on `demo_pgm`: from 0 within `-2 .. 3`, five
RIGHT presses stop at 3 and five LEFT presses stop at -2. -/
theorem range_round_trip_witness :
    Example.range_focus.walker.m_selected = false ∧
    focus Example.demo_pgm Example.range_focus.walker
      = some (3, Obj.range (MENU_RANGE "Level" (-2) 3 100)) ∧
    read_int16 Example.range_focus.ram 100 = 0 ∧
    read_int16 (run_keys Example.demo_env (DOWN_KEY :: List.replicate 5 RIGHT_KEY ++ [UP_KEY])
      Example.range_focus).ram 100 = 3 ∧
    read_int16 (run_keys Example.demo_env (DOWN_KEY :: List.replicate 5 LEFT_KEY ++ [UP_KEY])
      Example.range_focus).ram 100 = -2 := by
  have h := range_round_trip Example.demo_env Example.range_focus 3
    (MENU_RANGE "Level" (-2) 3 100) 0 5 rfl rfl rfl (by decide) (by decide) rfl
    (by decide) (by decide)
  exact ⟨rfl, rfl, rfl, h.1, h.2.2.2.1⟩

end Walker
end Menu
